import Mathlib

/-!
Verification of the named_pub_sub_manager repository core: the strategy
dispatch engine (`pub_sub.py`), the topic registry
(`named_pub_sub_manager.py`) and the queue manager (`queue_manager.py`),
shallowly embedded in Lean.  Strategy transport bodies (HTTP requests,
mail, SMS, ...) are external collaborators and are abstracted as an
outcome of the `process` call; everything else follows the Python source
line by line.
-/

/-! ## Delivery strategies (`pub_sub.py`, class `ProcessStrategy` and the
`ProcessMessageStrategies` enum)

The enum of strategy variants, `class ProcessMessageStrategies(Enum)`. -/

inductive ProcessMessageStrategiesKind where
  | HTTP
  | Email
  | File
  | SQL
  | SMS
  | MessageQueue
  | ExecutePythonScript
deriving DecidableEq, Repr

/-- A configured strategy instance.  `id` is the CPython object identity
(`id(self)`, used by `__hash__`).  The transport body of `process` is out
of scope (it calls external brokers); `outcome` records what that call
does for the published message: `none` means it returns normally, `some e`
means it raises the exception `e`. -/
structure ProcessStrategy where
  id : Nat
  kind : ProcessMessageStrategiesKind
  outcome : Option Nat
deriving DecidableEq, Repr

/-! ## Subscriber (`pub_sub.py` lines 200-229) -/

/-- `class Subscriber`: a name plus the bound strategies in binding order.
`id` is the object identity used by `__hash__`. -/
structure Subscriber where
  id : Nat
  name : String
  process_strategies : List ProcessStrategy
deriving DecidableEq, Repr

/-- Lines 216-223 of `Subscriber.process`: the `intersection_strategies`
list.  `none` takes all bound strategies; otherwise the nested loops
append, for each bound strategy, one copy per element of
`specific_process_strategies` whose class matches it
(`isinstance(process_strategy, strategy)`). -/
def intersection_strategies (bound : List ProcessStrategy)
    (specific : Option (List ProcessMessageStrategiesKind)) :
    List ProcessStrategy :=
  match specific with
  | none => bound
  | some sel =>
    (bound.map fun ps =>
      sel.filterMap fun k => if ps.kind = k then some ps else none).flatten

/-- Lines 225-226 of `Subscriber.process`: `for strategy in
intersection_strategies: print(strategy.process(message, ...))`.  There is
no exception handler, so a raising `process` aborts the loop and the
exception propagates.  Returns the ids of the strategies whose `process`
was invoked, in invocation order, together with the propagated exception
if any. -/
def runStrategies : List ProcessStrategy → List Nat × Option Nat
  | [] => ([], none)
  | s :: rest =>
    match s.outcome with
    | some e => ([s.id], some e)
    | none =>
      let r := runStrategies rest
      (s.id :: r.1, r.2)

/-- `Subscriber.process(message, specific_process_strategies=None, ...)`. -/
def Subscriber.process (sub : Subscriber)
    (specific : Option (List ProcessMessageStrategiesKind)) :
    List Nat × Option Nat :=
  runStrategies (intersection_strategies sub.process_strategies specific)

/-! ## Topic (`pub_sub.py`, class `PubSub`, lines 232-248)

`subscribers` is a Python `set` whose membership is governed by
`Subscriber.__hash__ = id(self)`: two subscribers collide exactly when
they are the same object, i.e. have the same `id`.  We model the set as
the list of its elements in iteration order. -/

structure PubSub where
  subscribers : List Subscriber
deriving DecidableEq, Repr

/-- `set.add`: no-op when an element with the same identity is present. -/
def setAdd (l : List Subscriber) (sub : Subscriber) : List Subscriber :=
  if l.any fun s => s.id = sub.id then l else l ++ [sub]

/-- `set.discard`: removes the element with this identity if present,
never raises. -/
def setDiscard (l : List Subscriber) (sub : Subscriber) : List Subscriber :=
  l.filter fun s => s.id ≠ sub.id

def PubSub.subscribe (ps : PubSub) (sub : Subscriber) : PubSub :=
  ⟨setAdd ps.subscribers sub⟩

def PubSub.unsubscribe (ps : PubSub) (sub : Subscriber) : PubSub :=
  ⟨setDiscard ps.subscribers sub⟩

/-- Lines 245-248, `PubSub.publish`: `for subscriber in self.subscribers:
subscriber.process(message, ...)`.  Again no exception handler: a raising
subscriber aborts the loop.  Returns the invoked strategy ids across the
fan-out and the propagated exception if any.  `publish` forwards no
`specific_process_strategies`, so each subscriber runs with `none`. -/
def publishList : List Subscriber → List Nat × Option Nat
  | [] => ([], none)
  | sub :: rest =>
    let r := sub.process none
    match r.2 with
    | some e => (r.1, some e)
    | none =>
      let r2 := publishList rest
      (r.1 ++ r2.1, r2.2)

def PubSub.publish (ps : PubSub) : List Nat × Option Nat :=
  publishList ps.subscribers

/-! ## Claims C1 and C2: dispatch behaviour -/

/-- Helper: a strategy list where every `process` returns normally. -/
abbrev allOk (l : List ProcessStrategy) : Prop :=
  ∀ p ∈ l, p.outcome = none

theorem runStrategies_ok (l : List ProcessStrategy) (h : allOk l) :
    runStrategies l = (l.map fun s => s.id, none) := by
  induction l with
  | nil => rfl
  | cons s rest ih =>
    have hs : s.outcome = none := h s (List.mem_cons_self s rest)
    have hr : allOk rest := fun p hp => h p (List.mem_cons_of_mem s hp)
    simp [runStrategies, hs, ih hr]

theorem runStrategies_failFast (pre : List ProcessStrategy)
    (s : ProcessStrategy) (post : List ProcessStrategy) (e : Nat)
    (hpre : allOk pre) (hs : s.outcome = some e) :
    runStrategies (pre ++ s :: post) =
      (pre.map (fun p => p.id) ++ [s.id], some e) := by
  induction pre with
  | nil => simp [runStrategies, hs]
  | cons p rest ih =>
    have hp : p.outcome = none := hpre p (List.mem_cons_self p rest)
    have hr : allOk rest := fun q hq => hpre q (List.mem_cons_of_mem p hq)
    simp [runStrategies, hp, ih hr]

/-- Claim C1, counterexample.  A subscriber bound to two strategies whose
first raises: `Subscriber.process` never invokes the second strategy and
the exception propagates immediately, and a topic with two subscribers
whose dispatches both raise delivers to only one of them (whatever the
set iteration order, by symmetry) with a single propagated exception
instead of an aggregate report after full fan-out. -/
theorem C1_counterexample :
    (Subscriber.process
        ⟨10, "S", [⟨1, .HTTP, some 7⟩, ⟨2, .Email, none⟩]⟩ none).1 = [1] ∧
    2 ∉ (Subscriber.process
        ⟨10, "S", [⟨1, .HTTP, some 7⟩, ⟨2, .Email, none⟩]⟩ none).1 ∧
    publishList
        [⟨10, "A", [⟨1, .HTTP, some 7⟩, ⟨2, .Email, none⟩]⟩,
         ⟨11, "B", [⟨3, .HTTP, some 8⟩, ⟨4, .Email, none⟩]⟩] =
      ([1], some 7) := by
  refine ⟨rfl, by decide, rfl⟩

/-- Claim C1, amended: `PubSub.publish` and `Subscriber.process` are
fail-fast, not aggregating.  The first strategy whose `process` raises
ends its subscriber's dispatch — later selected strategies are not
invoked — and the first subscriber whose dispatch raises ends the
fan-out — later subscribers in iteration order are not dispatched to —
with that first exception propagated immediately to the caller. -/
theorem C1_theorem :
    (∀ (pre : List ProcessStrategy) (s : ProcessStrategy)
       (post : List ProcessStrategy) (e : Nat),
       allOk pre → s.outcome = some e →
       runStrategies (pre ++ s :: post) =
         (pre.map (fun p => p.id) ++ [s.id], some e)) ∧
    (∀ (subsPre : List Subscriber) (sub : Subscriber)
       (subsPost : List Subscriber) (e : Nat),
       (∀ x ∈ subsPre, (x.process none).2 = none) →
       (sub.process none).2 = some e →
       publishList (subsPre ++ sub :: subsPost) =
         ((subsPre.map fun x => (x.process none).1).flatten ++
            (sub.process none).1, some e)) := by
  constructor
  · exact fun pre s post e h1 h2 => runStrategies_failFast pre s post e h1 h2
  · intro subsPre sub subsPost e hpre hsub
    induction subsPre with
    | nil => simp [publishList, hsub]
    | cons x rest ih =>
      have hx : (x.process none).2 = none :=
        hpre x (List.mem_cons_self x rest)
      have hr : ∀ y ∈ rest, (y.process none).2 = none :=
        fun y hy => hpre y (List.mem_cons_of_mem x hy)
      simp only [List.cons_append, publishList, hx]
      rw [show rest.append (sub :: subsPost) = rest ++ sub :: subsPost from
        rfl, ih hr]
      simp [List.append_assoc]

/-- Witness for C1_theorem at concrete inputs. -/
theorem C1_witness :
    runStrategies
        [⟨1, .File, none⟩, ⟨2, .SQL, some 9⟩, ⟨3, .SMS, none⟩] =
      ([1, 2], some 9) ∧
    publishList
        [⟨10, "A", [⟨1, .File, none⟩]⟩,
         ⟨11, "B", [⟨2, .SQL, some 9⟩]⟩,
         ⟨12, "C", [⟨3, .SMS, none⟩]⟩] =
      ([1, 2], some 9) := by
  constructor
  · exact C1_theorem.1 [⟨1, .File, none⟩] ⟨2, .SQL, some 9⟩
      [⟨3, .SMS, none⟩] 9 (by decide) rfl
  · exact C1_theorem.2 [⟨10, "A", [⟨1, .File, none⟩]⟩]
      ⟨11, "B", [⟨2, .SQL, some 9⟩]⟩ [⟨12, "C", [⟨3, .SMS, none⟩]⟩] 9
      (by decide) rfl

theorem filterMap_select_nodup (ps : ProcessStrategy)
    (sel : List ProcessMessageStrategiesKind) (h : sel.Nodup) :
    (sel.filterMap fun k => if ps.kind = k then some ps else none) =
      if ps.kind ∈ sel then [ps] else [] := by
  induction sel with
  | nil => rfl
  | cons k rest ih =>
    rcases List.nodup_cons.mp h with ⟨hk, hrest⟩
    by_cases hpk : ps.kind = k
    · have hmem : ps.kind ∉ rest := by
        rw [hpk]; exact hk
      simp [List.filterMap_cons, hpk, ih hrest, hmem]
      intro a ha hka
      exact hk (by rw [hka]; exact ha)
    · simp [List.filterMap_cons, hpk, ih hrest, List.mem_cons]

theorem intersection_strategies_nodup (bound : List ProcessStrategy)
    (sel : List ProcessMessageStrategiesKind) (h : sel.Nodup) :
    intersection_strategies bound (some sel) =
      bound.filter fun s => s.kind ∈ sel := by
  induction bound with
  | nil => rfl
  | cons ps rest ih =>
    simp only [intersection_strategies, List.map_cons, List.flatten_cons] at *
    rw [filterMap_select_nodup ps sel h, ih]
    by_cases hmem : ps.kind ∈ sel
    · simp [hmem, List.filter_cons]
    · simp [hmem, List.filter_cons]

/-- Claim C2, counterexample.  The selection loop appends a bound strategy
once per matching element of `specific_process_strategies`, so a selected
kind that is listed twice invokes the matching strategy twice, not once:
a subscriber bound to a single Email strategy, dispatched with the
selected kinds `[Email, Email]`, runs that strategy's `process` twice. -/
theorem C2_counterexample :
    intersection_strategies [⟨1, .Email, none⟩]
        (some [.Email, .Email]) =
      [⟨1, .Email, none⟩, ⟨1, .Email, none⟩] ∧
    (Subscriber.process ⟨5, "S", [⟨1, .Email, none⟩]⟩
        (some [.Email, .Email])).1 = [1, 1] := by
  exact ⟨rfl, rfl⟩

/-- Claim C2, amended: with the kind-selection argument omitted,
`Subscriber.process` invokes all bound strategies in binding order; with a
non-empty, duplicate-free list of selected kinds it invokes exactly the
bound strategies whose variant tag is among the selected kinds, each once,
in binding order (if a kind is listed several times, each matching
strategy is invoked once per listing). -/
theorem C2_theorem :
    (∀ sub : Subscriber,
       sub.process none = runStrategies sub.process_strategies) ∧
    (∀ (bound : List ProcessStrategy)
       (sel : List ProcessMessageStrategiesKind),
       sel ≠ [] → sel.Nodup →
       intersection_strategies bound (some sel) =
         bound.filter fun s => s.kind ∈ sel) ∧
    (∀ (sub : Subscriber) (sel : List ProcessMessageStrategiesKind),
       sel.Nodup → allOk sub.process_strategies →
       (sub.process (some sel)).1 =
         (sub.process_strategies.filter fun s => s.kind ∈ sel).map
           fun s => s.id) := by
  refine ⟨fun sub => rfl, fun bound sel _ h =>
    intersection_strategies_nodup bound sel h, ?_⟩
  intro sub sel hnd hok
  have hsel : allOk (sub.process_strategies.filter fun s => s.kind ∈ sel) :=
    fun p hp => hok p (List.mem_of_mem_filter hp)
  rw [Subscriber.process, intersection_strategies_nodup _ sel hnd,
    runStrategies_ok _ hsel]

/-- Witness for C2_theorem: the spec's own example, a subscriber bound to
`[HTTP, Email]` dispatched with selected kinds `[Email]` invokes only the
Email strategy. -/
theorem C2_witness :
    intersection_strategies [⟨1, .HTTP, none⟩, ⟨2, .Email, none⟩]
        (some [.Email]) = [⟨2, .Email, none⟩] ∧
    (Subscriber.process
        ⟨5, "S", [⟨1, .HTTP, none⟩, ⟨2, .Email, none⟩]⟩
        (some [.Email])).1 = [2] := by
  constructor
  · exact (C2_theorem.2.1 [⟨1, .HTTP, none⟩, ⟨2, .Email, none⟩] [.Email]
      (by decide) (by decide)).trans (by decide)
  · exact (C2_theorem.2.2 ⟨5, "S", [⟨1, .HTTP, none⟩, ⟨2, .Email, none⟩]⟩
      [.Email] (by decide) (by decide)).trans (by decide)

/-! ## Claims C6 and C8: set semantics of topic membership -/

theorem setAdd_mem (l : List Subscriber) (sub : Subscriber) :
    ((setAdd l sub).any fun s => s.id = sub.id) = true := by
  by_cases h : (l.any fun s => s.id = sub.id) = true
  · simp [setAdd, h]
  · simp only [setAdd, h, if_neg, Bool.not_eq_true]
    simp [h]

theorem subscribe_subscribe_eq (ps : PubSub) (sub : Subscriber) :
    (ps.subscribe sub).subscribe sub = ps.subscribe sub := by
  show PubSub.mk (setAdd (setAdd ps.subscribers sub) sub) = _
  rw [show setAdd (setAdd ps.subscribers sub) sub =
      setAdd ps.subscribers sub from by
    rw [setAdd, if_pos (setAdd_mem ps.subscribers sub)]]
  rfl

/-- Claim C6: subscribing the same subscriber instance twice leaves the
topic's subscriber-set cardinality unchanged, and unsubscribing a
subscriber that is not in the set leaves the set unchanged (and, being a
total operation, raises no error). -/
theorem C6_theorem (ps : PubSub) (sub : Subscriber) :
    ((ps.subscribe sub).subscribe sub).subscribers.length =
      (ps.subscribe sub).subscribers.length ∧
    ((∀ x ∈ ps.subscribers, x.id ≠ sub.id) → ps.unsubscribe sub = ps) := by
  constructor
  · rw [subscribe_subscribe_eq]
  · intro h
    show PubSub.mk (setDiscard ps.subscribers sub) = ps
    rw [setDiscard, List.filter_eq_self.mpr (by simpa using h)]

/-- Witness for C6_theorem. -/
theorem C6_witness :
    ((PubSub.mk [⟨1, "a", []⟩]).subscribe ⟨2, "b", []⟩
       |>.subscribe ⟨2, "b", []⟩).subscribers.length =
      ((PubSub.mk [⟨1, "a", []⟩]).subscribe
        ⟨2, "b", []⟩).subscribers.length ∧
    (PubSub.mk [⟨1, "a", []⟩]).unsubscribe ⟨2, "b", []⟩ =
      PubSub.mk [⟨1, "a", []⟩] :=
  ⟨(C6_theorem (PubSub.mk [⟨1, "a", []⟩]) ⟨2, "b", []⟩).1,
   (C6_theorem (PubSub.mk [⟨1, "a", []⟩]) ⟨2, "b", []⟩).2 (by decide)⟩

/-- Claim C8: membership is reference identity.  Two separately
constructed subscriber instances with equal configuration (same name,
same strategy list) but distinct identities are both kept, giving
cardinality 2, while re-adding the very same instance is a no-op, giving
cardinality 1. -/
theorem C8_theorem (s1 s2 : Subscriber) (hid : s1.id ≠ s2.id)
    (hname : s1.name = s2.name)
    (hstrat : s1.process_strategies = s2.process_strategies) :
    ((PubSub.mk []).subscribe s1 |>.subscribe s2).subscribers.length = 2 ∧
    ((PubSub.mk []).subscribe s1 |>.subscribe s1).subscribers.length = 1 := by
  constructor
  · show (setAdd (setAdd [] s1) s2).length = 2
    simp [setAdd, hid]
  · show (setAdd (setAdd [] s1) s1).length = 1
    simp [setAdd]

/-- Witness for C8_theorem: two field-equal subscribers built separately.  -/
theorem C8_witness :
    ((PubSub.mk []).subscribe ⟨1, "n", []⟩
       |>.subscribe ⟨2, "n", []⟩).subscribers.length = 2 ∧
    ((PubSub.mk []).subscribe ⟨1, "n", []⟩
       |>.subscribe ⟨1, "n", []⟩).subscribers.length = 1 :=
  C8_theorem ⟨1, "n", []⟩ ⟨2, "n", []⟩ (by decide) rfl rfl

/-! ## Topic registry (`named_pub_sub_manager.py`, class `NamedPubSubManager`)

`named_pub_sub` is a Python dict from topic name to a `PubSub` object.
`PubSub` objects are mutable and held by reference, and
`add_named_pub_sub` has the module-level mutable default argument
`subscribers: Set[Subscriber] = set()`, so we model the store
explicitly: `heap` is the list of allocated subscriber sets, a `PubSub`
object is the index (`ref`) of its set, and `sharedDefault` is the index
of the default-argument set allocated once at function definition time.

Python dicts are insertion ordered; we model them as association lists
with first-match lookup and update-or-append assignment. -/

def alistLookup {α β : Type} [DecidableEq α] :
    List (α × β) → α → Option β
  | [], _ => none
  | p :: rest, k => if p.1 = k then some p.2 else alistLookup rest k

def alistInsert {α β : Type} [DecidableEq α] :
    List (α × β) → α → β → List (α × β)
  | [], k, v => [(k, v)]
  | p :: rest, k, v =>
    if p.1 = k then (k, v) :: rest else p :: alistInsert rest k v

def heapGet (h : List (List Subscriber)) (r : Nat) : List Subscriber :=
  h.getD r []

structure NamedPubSubManager where
  heap : List (List Subscriber)
  named_pub_sub : List (String × Nat)
  sharedDefault : Nat
deriving DecidableEq, Repr

/-- `PubSub.__init__(self, subscribers=None)` (pub_sub.py lines 236-237):
`self.subscribers = subscribers or set()`.  Given the heap and the
(optional) reference passed for `subscribers`, a falsy argument — `None`
or a reference to an empty set — makes the object allocate a fresh empty
set; otherwise the object aliases the passed set. -/
def pubSubInit (h : List (List Subscriber)) (arg : Option Nat) :
    List (List Subscriber) × Nat :=
  match arg with
  | none => (h ++ [[]], h.length)
  | some r => if heapGet h r = [] then (h ++ [[]], h.length) else (h, r)

/-- `NamedPubSubManager()` with no explicit topics: `__post_init__`
builds `{"default": PubSub()}`.  Heap cell 0 is the shared default
argument set of `add_named_pub_sub` (allocated at module import); cell 1
is the fresh set of the `"default"` topic's `PubSub()`. -/
def NamedPubSubManager.init : NamedPubSubManager :=
  ⟨[[], []], [("default", 1)], 0⟩

/-- Lines 23-29: insert a new `PubSub` built from the shared default
subscriber-set argument when the name is absent; otherwise no-op. -/
def NamedPubSubManager.add_named_pub_sub (st : NamedPubSubManager)
    (name : String) : NamedPubSubManager :=
  match alistLookup st.named_pub_sub name with
  | some _ => st
  | none =>
    let hr := pubSubInit st.heap (some st.sharedDefault)
    ⟨hr.1, alistInsert st.named_pub_sub name hr.2, st.sharedDefault⟩

/-- Lines 50-53: `named_pub_sub.get(name)` and create when `None`. -/
def NamedPubSubManager.create_pub_sub_name_if_not_exists
    (st : NamedPubSubManager) (name : String) : NamedPubSubManager :=
  match alistLookup st.named_pub_sub name with
  | some _ => st
  | none => st.add_named_pub_sub name

/-- Lines 31-35: ensure the topic, then `PubSub.subscribe` on it (a
mutation of the topic's heap cell). -/
def NamedPubSubManager.subscribe (st : NamedPubSubManager) (name : String)
    (sub : Subscriber) : NamedPubSubManager :=
  let st1 := st.create_pub_sub_name_if_not_exists name
  match alistLookup st1.named_pub_sub name with
  | none => st1
  | some r =>
    ⟨st1.heap.set r (setAdd (heapGet st1.heap r) sub), st1.named_pub_sub,
      st1.sharedDefault⟩

/-- Lines 37-41: ensure the topic, then `PubSub.unsubscribe` on it. -/
def NamedPubSubManager.unsubscribe (st : NamedPubSubManager)
    (name : String) (sub : Subscriber) : NamedPubSubManager :=
  let st1 := st.create_pub_sub_name_if_not_exists name
  match alistLookup st1.named_pub_sub name with
  | none => st1
  | some r =>
    ⟨st1.heap.set r (setDiscard (heapGet st1.heap r) sub),
      st1.named_pub_sub, st1.sharedDefault⟩

/-- Lines 43-48: ensure the topic, then `PubSub.publish` — a pure
fan-out over the topic's current subscriber set.  Returns the updated
registry together with the fan-out result. -/
def NamedPubSubManager.publish (st : NamedPubSubManager) (name : String) :
    NamedPubSubManager × (List Nat × Option Nat) :=
  let st1 := st.create_pub_sub_name_if_not_exists name
  match alistLookup st1.named_pub_sub name with
  | none => (st1, ([], none))
  | some r => (st1, publishList (heapGet st1.heap r))

/-- The subscriber set a topic name currently denotes, if the name
exists. -/
def readSet (st : NamedPubSubManager) (name : String) :
    Option (List Subscriber) :=
  (alistLookup st.named_pub_sub name).map (heapGet st.heap)

/-- Registry states reachable through the public registry API from the
default initialisation. -/
inductive Reachable : NamedPubSubManager → Prop where
  | init : Reachable NamedPubSubManager.init
  | ensure (st : NamedPubSubManager) (name : String) : Reachable st →
      Reachable (st.create_pub_sub_name_if_not_exists name)
  | subscribe (st : NamedPubSubManager) (name : String)
      (sub : Subscriber) : Reachable st → Reachable (st.subscribe name sub)
  | unsubscribe (st : NamedPubSubManager) (name : String)
      (sub : Subscriber) : Reachable st →
      Reachable (st.unsubscribe name sub)
  | publish (st : NamedPubSubManager) (name : String) : Reachable st →
      Reachable (st.publish name).1

/-- Registry heap invariant: the shared default-argument set stays
empty, every topic's reference is a live heap cell distinct from the
shared default, and no two topics alias the same cell. -/
structure RegInv (st : NamedPubSubManager) : Prop where
  shared_lt : st.sharedDefault < st.heap.length
  shared_empty : heapGet st.heap st.sharedDefault = []
  refs_lt : ∀ p ∈ st.named_pub_sub, p.2 < st.heap.length
  refs_ne_shared : ∀ p ∈ st.named_pub_sub, p.2 ≠ st.sharedDefault
  refs_nodup : (st.named_pub_sub.map Prod.snd).Nodup

theorem alistLookup_insert_self {α β : Type} [DecidableEq α]
    (l : List (α × β)) (k : α) (v : β) :
    alistLookup (alistInsert l k v) k = some v := by
  induction l with
  | nil => simp [alistInsert, alistLookup]
  | cons p rest ih =>
    by_cases h : p.1 = k
    · simp [alistInsert, alistLookup, h]
    · simp [alistInsert, alistLookup, h, ih]

theorem alistInsert_of_lookup_none {α β : Type} [DecidableEq α]
    (l : List (α × β)) (k : α) (v : β) (h : alistLookup l k = none) :
    alistInsert l k v = l ++ [(k, v)] := by
  induction l with
  | nil => rfl
  | cons p rest ih =>
    by_cases hp : p.1 = k
    · simp [alistLookup, hp] at h
    · rw [alistLookup, if_neg hp] at h
      simp [alistInsert, hp, ih h]

theorem alistLookup_append_left {α β : Type} [DecidableEq α]
    (l l2 : List (α × β)) (k : α) (v : β)
    (h : alistLookup l k = some v) :
    alistLookup (l ++ l2) k = some v := by
  induction l with
  | nil => simp [alistLookup] at h
  | cons p rest ih =>
    by_cases hp : p.1 = k
    · simpa [alistLookup, hp] using h
    · simp only [alistLookup, hp, if_neg] at h ⊢
      simpa [hp] using ih h

theorem alistLookup_append_right {α β : Type} [DecidableEq α]
    (l l2 : List (α × β)) (k : α) (h : alistLookup l k = none) :
    alistLookup (l ++ l2) k = alistLookup l2 k := by
  induction l with
  | nil => rfl
  | cons p rest ih =>
    by_cases hp : p.1 = k
    · simp [alistLookup, hp] at h
    · simp only [alistLookup, hp, if_neg, List.cons_append] at h ⊢
      simpa [hp] using ih (by simpa [hp] using h)

theorem alistLookup_mem {α β : Type} [DecidableEq α]
    (l : List (α × β)) (k : α) (v : β) (h : alistLookup l k = some v) :
    (k, v) ∈ l := by
  induction l with
  | nil => simp [alistLookup] at h
  | cons p rest ih =>
    by_cases hp : p.1 = k
    · simp only [alistLookup, hp, if_pos, Option.some_inj] at h
      obtain ⟨a, b⟩ := p
      simp only at hp h
      subst hp h
      exact List.mem_cons_self _ _
    · simp only [alistLookup, hp, if_neg] at h
      exact List.mem_cons_of_mem p (ih (by simpa [hp] using h))

theorem alistLookup_snd_mem {α β : Type} [DecidableEq α]
    (l : List (α × β)) (k : α) (v : β) (h : alistLookup l k = some v) :
    v ∈ l.map Prod.snd := by
  exact List.mem_map.mpr ⟨(k, v), alistLookup_mem l k v h, rfl⟩

theorem alistLookup_ne_of_nodup {α β : Type} [DecidableEq α]
    (l : List (α × β)) (a b : α) (ra rb : β)
    (hnd : (l.map Prod.snd).Nodup) (hab : a ≠ b)
    (ha : alistLookup l a = some ra) (hb : alistLookup l b = some rb) :
    ra ≠ rb := by
  induction l with
  | nil => simp [alistLookup] at ha
  | cons p rest ih =>
    have hnd1 : (p.2 :: rest.map Prod.snd).Nodup := by simpa using hnd
    have hhead : p.2 ∉ rest.map Prod.snd := (List.nodup_cons.mp hnd1).1
    have htail : (rest.map Prod.snd).Nodup := (List.nodup_cons.mp hnd1).2
    by_cases hpa : p.1 = a
    · have hpb : ¬p.1 = b := fun hh => hab (hpa ▸ hh ▸ rfl)
      simp only [alistLookup, hpa, if_pos, Option.some_inj] at ha
      simp only [alistLookup, hpb, if_neg] at hb
      have hmem : rb ∈ rest.map Prod.snd :=
        alistLookup_snd_mem rest b rb (by simpa [hpb] using hb)
      intro hcon
      rw [← ha] at hcon
      exact hhead (by rw [hcon]; exact hmem)
    · by_cases hpb : p.1 = b
      · simp only [alistLookup, hpb, if_pos, Option.some_inj] at hb
        simp only [alistLookup, hpa, if_neg] at ha
        have hmem : ra ∈ rest.map Prod.snd :=
          alistLookup_snd_mem rest a ra (by simpa [hpa] using ha)
        intro hcon
        rw [← hb] at hcon
        exact hhead (by rw [← hcon]; exact hmem)
      · exact ih htail (by simpa [alistLookup, hpa] using ha)
          (by simpa [alistLookup, hpb] using hb)

theorem heapGet_append_lt (h : List (List Subscriber)) (x : List Subscriber)
    (r : Nat) (hr : r < h.length) : heapGet (h ++ [x]) r = heapGet h r := by
  simp [heapGet, List.getD, List.getElem?_append_left hr]

theorem heapGet_append_len (h : List (List Subscriber))
    (x : List Subscriber) : heapGet (h ++ [x]) h.length = x := by
  simp [heapGet, List.getD]

theorem heapGet_set_ne (h : List (List Subscriber)) (r r2 : Nat)
    (v : List Subscriber) (hne : r ≠ r2) :
    heapGet (h.set r v) r2 = heapGet h r2 := by
  simp [heapGet, List.getD, List.getElem?_set_ne hne]

theorem heapGet_set_self (h : List (List Subscriber)) (r : Nat)
    (v : List Subscriber) (hr : r < h.length) :
    heapGet (h.set r v) r = v := by
  simp [heapGet, List.getD, List.getElem?_set, hr]

theorem regInv_init : RegInv NamedPubSubManager.init := by
  refine ⟨by decide, by decide, ?_, ?_, by decide⟩
  · intro p hp
    simp only [NamedPubSubManager.init] at hp ⊢
    rcases List.mem_singleton.mp hp with h
    rw [h]
    decide
  · intro p hp
    simp only [NamedPubSubManager.init] at hp ⊢
    rcases List.mem_singleton.mp hp with h
    rw [h]
    decide

theorem create_of_some (st : NamedPubSubManager) (name : String) (r : Nat)
    (h : alistLookup st.named_pub_sub name = some r) :
    st.create_pub_sub_name_if_not_exists name = st := by
  unfold NamedPubSubManager.create_pub_sub_name_if_not_exists
  rw [h]

theorem create_of_none (st : NamedPubSubManager) (name : String)
    (hsh : heapGet st.heap st.sharedDefault = [])
    (h : alistLookup st.named_pub_sub name = none) :
    st.create_pub_sub_name_if_not_exists name =
      ⟨st.heap ++ [[]], st.named_pub_sub ++ [(name, st.heap.length)],
        st.sharedDefault⟩ := by
  unfold NamedPubSubManager.create_pub_sub_name_if_not_exists
    NamedPubSubManager.add_named_pub_sub
  rw [h]
  simp only [pubSubInit, hsh, if_pos]
  rw [alistInsert_of_lookup_none _ _ _ h]

theorem regInv_create (st : NamedPubSubManager) (name : String)
    (inv : RegInv st) :
    RegInv (st.create_pub_sub_name_if_not_exists name) := by
  cases hl : alistLookup st.named_pub_sub name with
  | some r => rw [create_of_some st name r hl]; exact inv
  | none =>
    rw [create_of_none st name inv.shared_empty hl]
    constructor
    · have := inv.shared_lt
      simp only [List.length_append, List.length_singleton]
      omega
    · rw [heapGet_append_lt _ _ _ inv.shared_lt]
      exact inv.shared_empty
    · intro p hp
      simp only [List.length_append, List.length_singleton]
      rcases List.mem_append.mp hp with hold | hnew
      · have := inv.refs_lt p hold
        omega
      · rw [List.mem_singleton.mp hnew]
        omega
    · intro p hp
      rcases List.mem_append.mp hp with hold | hnew
      · exact inv.refs_ne_shared p hold
      · rw [List.mem_singleton.mp hnew]
        show st.heap.length ≠ st.sharedDefault
        have := inv.shared_lt
        omega
    · rw [List.map_append]
      rw [List.nodup_append]
      refine ⟨inv.refs_nodup, List.nodup_singleton _, ?_⟩
      intro x hx hx2
      simp only [List.map_cons, List.map_nil, List.mem_singleton] at hx2
      rcases List.mem_map.mp hx with ⟨p, hp, hpx⟩
      have := inv.refs_lt p hp
      omega

theorem regInv_setref (st : NamedPubSubManager) (r : Nat) (name : String)
    (v : List Subscriber)
    (hr : alistLookup st.named_pub_sub name = some r) (inv : RegInv st) :
    RegInv ⟨st.heap.set r v, st.named_pub_sub, st.sharedDefault⟩ := by
  have hmem := alistLookup_mem _ _ _ hr
  have hrne : r ≠ st.sharedDefault := inv.refs_ne_shared (name, r) hmem
  constructor
  · simpa using inv.shared_lt
  · show heapGet (st.heap.set r v) st.sharedDefault = []
    rw [heapGet_set_ne _ _ _ _ hrne]
    exact inv.shared_empty
  · intro p hp
    simpa using inv.refs_lt p hp
  · exact inv.refs_ne_shared
  · exact inv.refs_nodup

theorem regInv_subscribe (st : NamedPubSubManager) (name : String)
    (sub : Subscriber) (inv : RegInv st) :
    RegInv (st.subscribe name sub) := by
  have inv1 := regInv_create st name inv
  simp only [NamedPubSubManager.subscribe]
  cases hl : alistLookup
      (st.create_pub_sub_name_if_not_exists name).named_pub_sub name with
  | none => exact inv1
  | some r => exact regInv_setref _ r name _ hl inv1

theorem regInv_unsubscribe (st : NamedPubSubManager) (name : String)
    (sub : Subscriber) (inv : RegInv st) :
    RegInv (st.unsubscribe name sub) := by
  have inv1 := regInv_create st name inv
  simp only [NamedPubSubManager.unsubscribe]
  cases hl : alistLookup
      (st.create_pub_sub_name_if_not_exists name).named_pub_sub name with
  | none => exact inv1
  | some r => exact regInv_setref _ r name _ hl inv1

theorem regInv_publish (st : NamedPubSubManager) (name : String)
    (inv : RegInv st) : RegInv (st.publish name).1 := by
  have inv1 := regInv_create st name inv
  simp only [NamedPubSubManager.publish]
  cases hl : alistLookup
      (st.create_pub_sub_name_if_not_exists name).named_pub_sub name with
  | none => exact inv1
  | some r => exact inv1

theorem reachable_inv (st : NamedPubSubManager) (h : Reachable st) :
    RegInv st := by
  induction h with
  | init => exact regInv_init
  | ensure st name _ ih => exact regInv_create st name ih
  | subscribe st name sub _ ih => exact regInv_subscribe st name sub ih
  | unsubscribe st name sub _ ih => exact regInv_unsubscribe st name sub ih
  | publish st name _ ih => exact regInv_publish st name ih

theorem create_lookup_isSome (st : NamedPubSubManager) (name : String) :
    (alistLookup (st.create_pub_sub_name_if_not_exists name).named_pub_sub
      name).isSome := by
  cases hl : alistLookup st.named_pub_sub name with
  | some r => rw [create_of_some st name r hl, hl]; rfl
  | none =>
    simp only [NamedPubSubManager.create_pub_sub_name_if_not_exists,
      NamedPubSubManager.add_named_pub_sub, hl]
    rw [alistLookup_insert_self]
    rfl

/-- Claim C4: after `subscribe`, `unsubscribe` or `publish` on any name,
the name is a key of the registry mapping (lazy creation); the three
operations are total functions of the state, so the registry-level state
change itself never fails. -/
theorem C4_theorem (st : NamedPubSubManager) (name : String)
    (sub : Subscriber) :
    (alistLookup (st.subscribe name sub).named_pub_sub name).isSome ∧
    (alistLookup (st.unsubscribe name sub).named_pub_sub name).isSome ∧
    (alistLookup (st.publish name).1.named_pub_sub name).isSome := by
  refine ⟨?_, ?_, ?_⟩
  · simp only [NamedPubSubManager.subscribe]
    cases hl : alistLookup
        (st.create_pub_sub_name_if_not_exists name).named_pub_sub name with
    | none =>
      have h2 := create_lookup_isSome st name
      rw [hl] at h2
      simp at h2
    | some r => simp [hl]
  · simp only [NamedPubSubManager.unsubscribe]
    cases hl : alistLookup
        (st.create_pub_sub_name_if_not_exists name).named_pub_sub name with
    | none =>
      have h2 := create_lookup_isSome st name
      rw [hl] at h2
      simp at h2
    | some r => simp [hl]
  · simp only [NamedPubSubManager.publish]
    cases hl : alistLookup
        (st.create_pub_sub_name_if_not_exists name).named_pub_sub name with
    | none =>
      have h2 := create_lookup_isSome st name
      rw [hl] at h2
      simp at h2
    | some r => simp [hl]

/-- Claim C5: publishing to a name the registry has never seen first
creates the topic with a fresh empty subscriber set, delivers to zero
subscribers and raises no error, and a second publish to the same name
creates nothing new (the registry state is unchanged). -/
theorem C5_theorem (st : NamedPubSubManager) (name : String)
    (hre : Reachable st)
    (hnone : alistLookup st.named_pub_sub name = none) :
    (st.publish name).2 = ([], none) ∧
    readSet (st.publish name).1 name = some [] ∧
    ((st.publish name).1.publish name).1 = (st.publish name).1 := by
  have inv := reachable_inv st hre
  have hc := create_of_none st name inv.shared_empty hnone
  have hlook : alistLookup
      (st.named_pub_sub ++ [(name, st.heap.length)]) name =
      some st.heap.length := by
    rw [alistLookup_append_right _ _ _ hnone]
    simp [alistLookup]
  have hget : heapGet (st.heap ++ [[]]) st.heap.length = [] :=
    heapGet_append_len st.heap []
  have hpub : st.publish name =
      (⟨st.heap ++ [[]], st.named_pub_sub ++ [(name, st.heap.length)],
        st.sharedDefault⟩, ([], none)) := by
    simp only [NamedPubSubManager.publish, hc, hlook, hget, publishList]
  refine ⟨by rw [hpub], ?_, ?_⟩
  · rw [hpub]
    simp [readSet, hlook, hget]
  · rw [hpub]
    have hc2 := create_of_some
      ⟨st.heap ++ [[]], st.named_pub_sub ++ [(name, st.heap.length)],
        st.sharedDefault⟩ name st.heap.length hlook
    simp only [NamedPubSubManager.publish, hc2, hlook]

/-- Witness for C5_theorem: the default-initialised registry publishing
to the unseen name "room". -/
theorem C5_witness :
    (NamedPubSubManager.init.publish "room").2 = ([], none) ∧
    readSet (NamedPubSubManager.init.publish "room").1 "room" = some [] ∧
    ((NamedPubSubManager.init.publish "room").1.publish "room").1 =
      (NamedPubSubManager.init.publish "room").1 :=
  C5_theorem NamedPubSubManager.init "room" Reachable.init (by decide)

theorem lookup_create_other (st : NamedPubSubManager) (a b : String)
    (inv : RegInv st) (hab : a ≠ b) :
    alistLookup (st.create_pub_sub_name_if_not_exists a).named_pub_sub b =
      alistLookup st.named_pub_sub b := by
  cases hla : alistLookup st.named_pub_sub a with
  | some r => rw [create_of_some st a r hla]
  | none =>
    rw [create_of_none st a inv.shared_empty hla]
    show alistLookup (st.named_pub_sub ++ [(a, st.heap.length)]) b = _
    cases hlb : alistLookup st.named_pub_sub b with
    | some rb => rw [alistLookup_append_left _ _ _ _ hlb]
    | none =>
      rw [alistLookup_append_right _ _ _ hlb]
      simp [alistLookup, hab]

theorem readSet_create_other (st : NamedPubSubManager) (a b : String)
    (inv : RegInv st) (hab : a ≠ b) :
    readSet (st.create_pub_sub_name_if_not_exists a) b = readSet st b := by
  cases hla : alistLookup st.named_pub_sub a with
  | some r => rw [create_of_some st a r hla]
  | none =>
    rw [create_of_none st a inv.shared_empty hla]
    show (alistLookup (st.named_pub_sub ++ [(a, st.heap.length)]) b).map
        (heapGet (st.heap ++ [[]])) = _
    cases hlb : alistLookup st.named_pub_sub b with
    | some rb =>
      rw [alistLookup_append_left _ _ _ _ hlb]
      have hrb : rb < st.heap.length :=
        inv.refs_lt (b, rb) (alistLookup_mem _ _ _ hlb)
      simp [readSet, hlb, heapGet_append_lt _ _ _ hrb]
    | none =>
      rw [alistLookup_append_right _ _ _ hlb]
      simp only [readSet, hlb, alistLookup, hab, Option.map_none]
      simp [hab]

/-- Claim C10: lazy creation hands every new topic its own fresh empty
subscriber set even though `add_named_pub_sub`'s default argument is one
shared module-level set (`subscribers or set()` replaces the falsy empty
set by a new one), and consequently subscribing to one topic never
changes any other topic's subscriber set. -/
theorem C10_theorem (st : NamedPubSubManager) (name a b : String)
    (sub : Subscriber) (hre : Reachable st) :
    (alistLookup st.named_pub_sub name = none →
      readSet (st.create_pub_sub_name_if_not_exists name) name = some []) ∧
    (a ≠ b → readSet (st.subscribe a sub) b = readSet st b) := by
  have inv := reachable_inv st hre
  constructor
  · intro hnone
    rw [create_of_none st name inv.shared_empty hnone]
    have hlook : alistLookup
        (st.named_pub_sub ++ [(name, st.heap.length)]) name =
        some st.heap.length := by
      rw [alistLookup_append_right _ _ _ hnone]
      simp [alistLookup]
    simp [readSet, hlook, heapGet_append_len st.heap []]
  · intro hab
    have inv1 := regInv_create st a inv
    have hcro := readSet_create_other st a b inv hab
    have hclo := lookup_create_other st a b inv hab
    simp only [NamedPubSubManager.subscribe]
    cases hl : alistLookup
        (st.create_pub_sub_name_if_not_exists a).named_pub_sub a with
    | none => exact hcro
    | some ra =>
      rw [← hcro]
      show (alistLookup
          (st.create_pub_sub_name_if_not_exists a).named_pub_sub b).map
          (heapGet ((st.create_pub_sub_name_if_not_exists a).heap.set ra
            (setAdd (heapGet (st.create_pub_sub_name_if_not_exists a).heap
              ra) sub))) = _
      cases hlb : alistLookup
          (st.create_pub_sub_name_if_not_exists a).named_pub_sub b with
      | none => simp [readSet, hlb]
      | some rb =>
        have hne : ra ≠ rb := alistLookup_ne_of_nodup _ a b ra rb
          inv1.refs_nodup hab hl hlb
        simp [readSet, hlb, heapGet_set_ne _ _ _ _ hne]

/-- Witness for C10_theorem: on the default-initialised registry,
materialising the unseen topic "x" yields a fresh empty set, and
subscribing to "x" leaves the "default" topic's set untouched. -/
theorem C10_witness :
    readSet (NamedPubSubManager.init.create_pub_sub_name_if_not_exists
      "x") "x" = some [] ∧
    readSet (NamedPubSubManager.init.subscribe "x" ⟨1, "s", []⟩)
        "default" = readSet NamedPubSubManager.init "default" :=
  ⟨(C10_theorem NamedPubSubManager.init "x" "x" "default" ⟨1, "s", []⟩
      Reachable.init).1 (by decide),
   (C10_theorem NamedPubSubManager.init "x" "x" "default" ⟨1, "s", []⟩
      Reachable.init).2 (by decide)⟩

/-! ## Queue manager (`queue_manager.py`, class `QueueManager`)

The container module (`queues.py`, classes `Queue`, `Stack`,
`PriorityQueue`, `Event`) is referenced by the queue manager but is not
present in the reviewed source, so the containers are modelled from the
spec (sections 3, 4.6): Queue is strict FIFO, Stack strict LIFO,
PriorityQueue ordered by an explicit priority with ties broken by
insertion order (min-first), and a removal from an empty container is the
`QueueUnderflowError` failure.  `QueueManager` itself follows
`queue_manager.py`: its `queues` dict maps a kind key to a dict from name
to container; a failed dict lookup (Python `KeyError`, i.e. the
`(kind, name)` container does not exist) is the spec's
`QueueNotFoundError`. -/

inductive QueueType where
  | queue
  | stack
  | priority_queue
deriving DecidableEq, Repr

/-- Modelled from the spec: an Event buffered by an ordering container,
carrying the explicit priority the priority queue orders by. -/
structure Event where
  priority : Nat
  payload : Nat
deriving DecidableEq, Repr

inductive QueueError where
  | QueueNotFoundError
  | QueueUnderflowError
deriving DecidableEq, Repr

/-- Modelled from the spec: the three ordering-container variants over a
sequence of events.  The priority queue keeps its elements sorted by
priority, equal priorities in insertion order. -/
inductive Container where
  | queue (elems : List Event)
  | stack (elems : List Event)
  | priority_queue (elems : List Event)
deriving DecidableEq, Repr

def Container.elems : Container → List Event
  | .queue l => l
  | .stack l => l
  | .priority_queue l => l

def Container.kind : Container → QueueType
  | .queue _ => .queue
  | .stack _ => .stack
  | .priority_queue _ => .priority_queue

/-- Modelled from the spec: stable priority insertion — the new event is
placed after every event of smaller or equal priority, so equal-priority
events dequeue in insertion order. -/
def pqInsert (e : Event) : List Event → List Event
  | [] => [e]
  | x :: xs =>
    if x.priority ≤ e.priority then x :: pqInsert e xs else e :: x :: xs

/-- Modelled from the spec: the container insert operation, one event at
a time in call order.  Queue appends at the tail, Stack pushes on top
(kept at the head), PriorityQueue inserts stably by priority. -/
def Container.enqueue : Container → List Event → Container
  | .queue l, es => .queue (l ++ es)
  | .stack l, es => .stack (es.foldl (fun acc e => e :: acc) l)
  | .priority_queue l, es =>
    .priority_queue (es.foldl (fun acc e => pqInsert e acc) l)

/-- Modelled from the spec: the container remove operation — head of the
queue, top of the stack, minimum-priority element of the priority queue
(its head, by the sortedness invariant); removing from an empty
container is the underflow failure. -/
def Container.dequeue : Container → Except QueueError (Event × Container)
  | .queue [] => .error .QueueUnderflowError
  | .queue (x :: xs) => .ok (x, .queue xs)
  | .stack [] => .error .QueueUnderflowError
  | .stack (x :: xs) => .ok (x, .stack xs)
  | .priority_queue [] => .error .QueueUnderflowError
  | .priority_queue (x :: xs) => .ok (x, .priority_queue xs)

def emptyContainer : QueueType → Container
  | .queue => .queue []
  | .stack => .stack []
  | .priority_queue => .priority_queue []

/-- `queue_lookup[queue_type](*elements)` (queue_manager.py line 44): a
new container of the kind built from the given events. -/
def containerOfEvents (k : QueueType) (es : List Event) : Container :=
  (emptyContainer k).enqueue es

structure QueueManager where
  queues : List (QueueType × List (String × Container))
deriving DecidableEq, Repr

/-- `QueueManager()` with no explicit queues (`__post_init__`, lines
24-30): one `"default"` container of each kind. -/
def QueueManager.init : QueueManager :=
  ⟨[(.queue, [("default", .queue [])]),
    (.stack, [("default", .stack [])]),
    (.priority_queue, [("default", .priority_queue [])])]⟩

def managerLookup (qm : QueueManager) (k : QueueType) (n : String) :
    Option Container :=
  match alistLookup qm.queues k with
  | none => none
  | some inner => alistLookup inner n

/-- Lines 32-44: `enqueue` resolves `self.queues[queue_type]` (KeyError —
not-found — if the kind key is absent), then either delegates to the
existing named container's insert or creates a new container of the kind
from the events. -/
def QueueManager.enqueue (qm : QueueManager) (k : QueueType) (n : String)
    (es : List Event) : Except QueueError QueueManager :=
  match alistLookup qm.queues k with
  | none => .error .QueueNotFoundError
  | some inner =>
    match alistLookup inner n with
    | some c =>
      .ok ⟨alistInsert qm.queues k (alistInsert inner n (c.enqueue es))⟩
    | none =>
      .ok ⟨alistInsert qm.queues k
        (alistInsert inner n (containerOfEvents k es))⟩

/-- Lines 46-51: `dequeue` is `self.queues[queue_type][queue_name]
.dequeue()` — a missing kind or name key is the not-found failure, and
the container's own removal underflows when empty. -/
def QueueManager.dequeue (qm : QueueManager) (k : QueueType) (n : String) :
    Except QueueError (Event × QueueManager) :=
  match alistLookup qm.queues k with
  | none => .error .QueueNotFoundError
  | some inner =>
    match alistLookup inner n with
    | none => .error .QueueNotFoundError
    | some c =>
      match c.dequeue with
      | .error e => .error e
      | .ok (ev, c2) =>
        .ok (ev, ⟨alistInsert qm.queues k (alistInsert inner n c2)⟩)

/-! ## Claim C3: typed dequeue failures -/

theorem Container.dequeue_empty (c : Container) (h : c.elems = []) :
    c.dequeue = .error .QueueUnderflowError := by
  cases c with
  | queue l => cases l with
    | nil => rfl
    | cons x xs => simp [Container.elems] at h
  | stack l => cases l with
    | nil => rfl
    | cons x xs => simp [Container.elems] at h
  | priority_queue l => cases l with
    | nil => rfl
    | cons x xs => simp [Container.elems] at h

theorem Container.dequeue_nonempty (c : Container) (h : c.elems ≠ []) :
    ∃ ev c2, c.dequeue = .ok (ev, c2) := by
  cases c with
  | queue l => cases l with
    | nil => simp [Container.elems] at h
    | cons x xs => exact ⟨x, .queue xs, rfl⟩
  | stack l => cases l with
    | nil => simp [Container.elems] at h
    | cons x xs => exact ⟨x, .stack xs, rfl⟩
  | priority_queue l => cases l with
    | nil => simp [Container.elems] at h
    | cons x xs => exact ⟨x, .priority_queue xs, rfl⟩

theorem alistLookup_insert_ne {α β : Type} [DecidableEq α]
    (l : List (α × β)) (k k2 : α) (v : β) (h : k ≠ k2) :
    alistLookup (alistInsert l k v) k2 = alistLookup l k2 := by
  induction l with
  | nil => simp [alistInsert, alistLookup, h]
  | cons p rest ih =>
    by_cases hp : p.1 = k
    · simp [alistInsert, alistLookup, hp, h]
    · simp only [alistInsert, hp, if_neg]
      by_cases hp2 : p.1 = k2
      · simp [alistLookup, hp2]
      · simp [alistLookup, hp2, ih]

/-- Claim C3: for every kind and name, `dequeue` fails with
`QueueNotFoundError` when the `(kind, name)` container does not exist,
fails with `QueueUnderflowError` when it exists but is empty, and on a
non-empty container returns the container's removed element (and stores
the shrunken container back under the same key). -/
theorem C3_theorem (qm : QueueManager) (k : QueueType) (n : String) :
    (managerLookup qm k n = none →
      qm.dequeue k n = .error .QueueNotFoundError) ∧
    (∀ c, managerLookup qm k n = some c → c.elems = [] →
      qm.dequeue k n = .error .QueueUnderflowError) ∧
    (∀ c, managerLookup qm k n = some c → c.elems ≠ [] →
      ∃ ev c2, c.dequeue = .ok (ev, c2) ∧
        ∃ qm2, qm.dequeue k n = .ok (ev, qm2) ∧
          managerLookup qm2 k n = some c2) := by
  refine ⟨?_, ?_, ?_⟩
  · intro hnone
    unfold QueueManager.dequeue
    cases houter : alistLookup qm.queues k with
    | none => rfl
    | some inner =>
      unfold managerLookup at hnone
      rw [houter] at hnone
      simp only at hnone ⊢
      rw [hnone]
  · intro c hc hempty
    unfold QueueManager.dequeue
    unfold managerLookup at hc
    cases houter : alistLookup qm.queues k with
    | none => rw [houter] at hc; exact absurd hc (by simp)
    | some inner =>
      rw [houter] at hc
      simp only at hc ⊢
      rw [hc]
      simp only
      rw [Container.dequeue_empty c hempty]
  · intro c hc hne
    unfold managerLookup at hc
    cases houter : alistLookup qm.queues k with
    | none => rw [houter] at hc; exact absurd hc (by simp)
    | some inner =>
      rw [houter] at hc
      simp only at hc
      obtain ⟨ev, c2, hdq⟩ := Container.dequeue_nonempty c hne
      refine ⟨ev, c2, hdq, ?_⟩
      refine ⟨⟨alistInsert qm.queues k (alistInsert inner n c2)⟩, ?_, ?_⟩
      · unfold QueueManager.dequeue
        rw [houter]
        simp only
        rw [hc]
        simp only
        rw [hdq]
      · unfold managerLookup
        rw [alistLookup_insert_self]
        simp only
        rw [alistLookup_insert_self]

/-- Witness for C3_theorem: on the default queue manager a never-created
name is not found; the default queue is empty, so it underflows; and a
one-element queue dequeues its element. -/
theorem C3_witness :
    QueueManager.init.dequeue .queue "missing" =
      .error .QueueNotFoundError ∧
    QueueManager.init.dequeue .queue "default" =
      .error .QueueUnderflowError ∧
    (∃ ev c2, (Container.queue [⟨1, 2⟩]).dequeue = .ok (ev, c2) ∧
      ∃ qm2, (QueueManager.mk [(.queue, [("d", .queue [⟨1, 2⟩])])]).dequeue
          .queue "d" = .ok (ev, qm2) ∧
        managerLookup qm2 .queue "d" = some c2) :=
  ⟨(C3_theorem QueueManager.init .queue "missing").1 (by decide),
   (C3_theorem QueueManager.init .queue "default").2.1 (.queue [])
     (by decide) rfl,
   (C3_theorem (QueueManager.mk [(.queue, [("d", .queue [⟨1, 2⟩])])])
     .queue "d").2.2 (.queue [⟨1, 2⟩]) (by decide) (by decide)⟩

/-! ## Claim C7: queue-manager creation and insertion -/

abbrev pqSorted (l : List Event) : Prop :=
  l.Pairwise fun a b => a.priority ≤ b.priority

def prioEq (p : Nat) : Event → Bool := fun x => x.priority = p

def Container.wf : Container → Prop
  | .queue _ => True
  | .stack _ => True
  | .priority_queue l => pqSorted l

theorem mem_pqInsert (y e : Event) (l : List Event) :
    y ∈ pqInsert e l ↔ y = e ∨ y ∈ l := by
  induction l with
  | nil => simp [pqInsert]
  | cons x xs ih =>
    show y ∈ (if x.priority ≤ e.priority then x :: pqInsert e xs
        else e :: x :: xs) ↔ y = e ∨ y ∈ x :: xs
    by_cases hle : x.priority ≤ e.priority
    · rw [if_pos hle]
      simp only [List.mem_cons, ih]
      tauto
    · rw [if_neg hle]
      simp [List.mem_cons]

theorem pqInsert_sorted (e : Event) (l : List Event) (h : pqSorted l) :
    pqSorted (pqInsert e l) := by
  induction l with
  | nil => simp [pqInsert]
  | cons x xs ih =>
    have hx := (List.pairwise_cons.mp h).1
    have hxs := (List.pairwise_cons.mp h).2
    show pqSorted (if x.priority ≤ e.priority then x :: pqInsert e xs
        else e :: x :: xs)
    by_cases hle : x.priority ≤ e.priority
    · rw [if_pos hle]
      refine List.pairwise_cons.mpr ⟨?_, ih hxs⟩
      intro y hy
      rcases (mem_pqInsert y e xs).mp hy with h1 | h1
      · rw [h1]; exact hle
      · exact hx y h1
    · rw [if_neg hle]
      refine List.pairwise_cons.mpr ⟨?_, h⟩
      intro y hy
      rcases List.mem_cons.mp hy with h1 | h1
      · rw [h1]; omega
      · have := hx y h1; omega

theorem pqInsert_perm (e : Event) (l : List Event) :
    (pqInsert e l).Perm (e :: l) := by
  induction l with
  | nil => exact List.Perm.refl _
  | cons x xs ih =>
    by_cases hle : x.priority ≤ e.priority
    · simp only [pqInsert, hle, if_pos]
      exact (ih.cons x).trans (List.Perm.swap e x xs)
    · simp only [pqInsert, hle, if_neg]
      exact List.Perm.refl _

theorem pqInsert_filter (e : Event) (l : List Event) (p : Nat)
    (hs : pqSorted l) :
    (pqInsert e l).filter (prioEq p) =
      l.filter (prioEq p) ++ if e.priority = p then [e] else [] := by
  induction l with
  | nil =>
    by_cases hep : e.priority = p <;> simp [pqInsert, prioEq, hep]
  | cons x xs ih =>
    have hx := (List.pairwise_cons.mp hs).1
    have hxs := (List.pairwise_cons.mp hs).2
    by_cases hle : x.priority ≤ e.priority
    · simp only [pqInsert, hle, if_pos]
      by_cases hxp : x.priority = p
      · simp [List.filter_cons, prioEq, hxp, ih hxs]
      · simp [List.filter_cons, prioEq, hxp, ih hxs]
    · simp only [pqInsert, hle, if_neg]
      by_cases hep : e.priority = p
      · have hnil : (x :: xs).filter (prioEq p) = [] := by
          rw [List.filter_eq_nil_iff]
          intro y hy
          rcases List.mem_cons.mp hy with h1 | h1
          · rw [h1]; simp only [prioEq]; simp; omega
          · have := hx y h1; simp only [prioEq]; simp; omega
        rw [hnil]
        simp [List.filter_cons, prioEq, hep, hnil]
      · simp [List.filter_cons, prioEq, hep]

theorem pqFold_sorted (es : List Event) :
    ∀ l, pqSorted l →
      pqSorted (es.foldl (fun acc e => pqInsert e acc) l) := by
  induction es with
  | nil => exact fun l h => h
  | cons e rest ih => exact fun l h => ih _ (pqInsert_sorted e l h)

theorem pqFold_perm (es : List Event) :
    ∀ l, (es.foldl (fun acc e => pqInsert e acc) l).Perm (l ++ es) := by
  induction es with
  | nil => intro l; simp
  | cons e rest ih =>
    intro l
    simp only [List.foldl_cons]
    refine ((ih (pqInsert e l)).trans ?_)
    refine (List.Perm.append_right rest (pqInsert_perm e l)).trans ?_
    exact List.perm_middle.symm

theorem pqFold_filter (es : List Event) (p : Nat) :
    ∀ l, pqSorted l →
      (es.foldl (fun acc e => pqInsert e acc) l).filter (prioEq p) =
        l.filter (prioEq p) ++ es.filter (prioEq p) := by
  induction es with
  | nil => intro l _; simp
  | cons e rest ih =>
    intro l h
    simp only [List.foldl_cons]
    rw [ih _ (pqInsert_sorted e l h), pqInsert_filter e l p h]
    by_cases hep : e.priority = p
    · simp [List.filter_cons, prioEq, hep, List.append_assoc]
    · simp [List.filter_cons, prioEq, hep]

theorem stackFold_perm (es : List Event) :
    ∀ l, (es.foldl (fun acc e => e :: acc) l).Perm (l ++ es) := by
  induction es with
  | nil => intro l; simp
  | cons e rest ih =>
    intro l
    simp only [List.foldl_cons]
    exact (ih (e :: l)).trans List.perm_middle.symm

theorem Container.enqueue_perm (c : Container) (es : List Event) :
    (c.enqueue es).elems.Perm (c.elems ++ es) := by
  cases c with
  | queue l => exact List.Perm.refl _
  | stack l => exact stackFold_perm es l
  | priority_queue l => exact pqFold_perm es l

theorem Container.enqueue_kind (c : Container) (es : List Event) :
    (c.enqueue es).kind = c.kind := by
  cases c <;> rfl

theorem Container.enqueue_wf (c : Container) (es : List Event)
    (h : c.wf) : (c.enqueue es).wf := by
  cases c with
  | queue l => trivial
  | stack l => trivial
  | priority_queue l => exact pqFold_sorted es l h

theorem emptyContainer_kind (k : QueueType) : (emptyContainer k).kind = k := by
  cases k <;> rfl

theorem emptyContainer_wf (k : QueueType) : (emptyContainer k).wf := by
  cases k with
  | queue => trivial
  | stack => trivial
  | priority_queue => exact List.Pairwise.nil

theorem emptyContainer_elems (k : QueueType) :
    (emptyContainer k).elems = [] := by
  cases k <;> rfl

theorem Container.dequeue_kind (c : Container) (ev : Event)
    (c2 : Container) (h : c.dequeue = .ok (ev, c2)) : c2.kind = c.kind := by
  cases c with
  | queue l => cases l with
    | nil => simp [Container.dequeue] at h
    | cons x xs =>
      simp only [Container.dequeue, Except.ok.injEq, Prod.mk.injEq] at h
      rw [← h.2]
      rfl
  | stack l => cases l with
    | nil => simp [Container.dequeue] at h
    | cons x xs =>
      simp only [Container.dequeue, Except.ok.injEq, Prod.mk.injEq] at h
      rw [← h.2]
      rfl
  | priority_queue l => cases l with
    | nil => simp [Container.dequeue] at h
    | cons x xs =>
      simp only [Container.dequeue, Except.ok.injEq, Prod.mk.injEq] at h
      rw [← h.2]
      rfl

theorem Container.dequeue_wf (c : Container) (ev : Event)
    (c2 : Container) (hwf : c.wf) (h : c.dequeue = .ok (ev, c2)) :
    c2.wf := by
  cases c with
  | queue l => cases l with
    | nil => simp [Container.dequeue] at h
    | cons x xs =>
      simp only [Container.dequeue, Except.ok.injEq, Prod.mk.injEq] at h
      rw [← h.2]
      trivial
  | stack l => cases l with
    | nil => simp [Container.dequeue] at h
    | cons x xs =>
      simp only [Container.dequeue, Except.ok.injEq, Prod.mk.injEq] at h
      rw [← h.2]
      trivial
  | priority_queue l => cases l with
    | nil => simp [Container.dequeue] at h
    | cons x xs =>
      simp only [Container.dequeue, Except.ok.injEq, Prod.mk.injEq] at h
      rw [← h.2]
      exact (List.pairwise_cons.mp hwf).2

/-- Queue-manager invariant: every kind key is present (as after default
initialisation), and every stored container has the kind of its key and
is well-formed (priority queues sorted). -/
structure QMInv (qm : QueueManager) : Prop where
  kinds : ∀ k : QueueType, (alistLookup qm.queues k).isSome
  entries : ∀ k inner, alistLookup qm.queues k = some inner →
    ∀ n c, alistLookup inner n = some c → c.kind = k ∧ c.wf

/-- Queue-manager states reachable from default initialisation through
successful enqueue and dequeue calls. -/
inductive QReachable : QueueManager → Prop where
  | init : QReachable QueueManager.init
  | enqueue (qm : QueueManager) (k : QueueType) (n : String)
      (es : List Event) (qm2 : QueueManager) : QReachable qm →
      qm.enqueue k n es = .ok qm2 → QReachable qm2
  | dequeue (qm : QueueManager) (k : QueueType) (n : String) (ev : Event)
      (qm2 : QueueManager) : QReachable qm →
      qm.dequeue k n = .ok (ev, qm2) → QReachable qm2

theorem singleton_entry {n0 : String} {c0 : Container} (n : String)
    (c : Container) (h : alistLookup [(n0, c0)] n = some c) : c = c0 := by
  simp only [alistLookup] at h
  split at h
  · exact (Option.some_inj.mp h).symm
  · exact absurd h (by simp)

theorem qminv_init : QMInv QueueManager.init := by
  constructor
  · intro k; cases k <;> rfl
  · intro k inner hk n c hn
    cases k with
    | queue =>
      have hi : [("default", Container.queue [])] = inner :=
        Option.some_inj.mp (by rw [← hk]; rfl)
      rw [← hi] at hn
      rw [singleton_entry n c hn]
      exact ⟨rfl, trivial⟩
    | stack =>
      have hi : [("default", Container.stack [])] = inner :=
        Option.some_inj.mp (by rw [← hk]; rfl)
      rw [← hi] at hn
      rw [singleton_entry n c hn]
      exact ⟨rfl, trivial⟩
    | priority_queue =>
      have hi : [("default", Container.priority_queue [])] = inner :=
        Option.some_inj.mp (by rw [← hk]; rfl)
      rw [← hi] at hn
      rw [singleton_entry n c hn]
      exact ⟨rfl, List.Pairwise.nil⟩

theorem qminv_insert (qm : QueueManager) (k : QueueType) (n : String)
    (inner : List (String × Container)) (c2 : Container) (inv : QMInv qm)
    (houter : alistLookup qm.queues k = some inner) (hkind : c2.kind = k)
    (hwf : c2.wf) :
    QMInv ⟨alistInsert qm.queues k (alistInsert inner n c2)⟩ := by
  constructor
  · intro k2
    by_cases hk2 : k = k2
    · rw [← hk2]
      show (alistLookup (alistInsert qm.queues k _) k).isSome
      rw [alistLookup_insert_self]
      rfl
    · show (alistLookup (alistInsert qm.queues k _) k2).isSome
      rw [alistLookup_insert_ne _ _ _ _ hk2]
      exact inv.kinds k2
  · intro k2 inner2 hk2 n2 c hn2
    show c.kind = k2 ∧ c.wf
    by_cases hkk : k = k2
    · rw [← hkk] at hk2 ⊢
      rw [alistLookup_insert_self] at hk2
      have hi2 := Option.some_inj.mp hk2
      rw [← hi2] at hn2
      by_cases hnn : n = n2
      · rw [← hnn] at hn2
        rw [alistLookup_insert_self] at hn2
        rw [← Option.some_inj.mp hn2]
        exact ⟨hkind, hwf⟩
      · rw [alistLookup_insert_ne _ _ _ _ hnn] at hn2
        exact inv.entries k inner houter n2 c hn2
    · rw [alistLookup_insert_ne _ _ _ _ hkk] at hk2
      exact inv.entries k2 inner2 hk2 n2 c hn2

theorem qminv_enqueue (qm : QueueManager) (k : QueueType) (n : String)
    (es : List Event) (qm2 : QueueManager) (inv : QMInv qm)
    (h : qm.enqueue k n es = .ok qm2) : QMInv qm2 := by
  unfold QueueManager.enqueue at h
  cases houter : alistLookup qm.queues k with
  | none => rw [houter] at h; exact absurd h (by simp)
  | some inner =>
    rw [houter] at h
    simp only at h
    cases hinner : alistLookup inner n with
    | some c =>
      rw [hinner] at h
      simp only [Except.ok.injEq] at h
      rw [← h]
      have hold := inv.entries k inner houter n c hinner
      exact qminv_insert qm k n inner (c.enqueue es) inv houter
        (by rw [Container.enqueue_kind]; exact hold.1)
        (Container.enqueue_wf c es hold.2)
    | none =>
      rw [hinner] at h
      simp only [Except.ok.injEq] at h
      rw [← h]
      exact qminv_insert qm k n inner (containerOfEvents k es) inv houter
        (by rw [containerOfEvents, Container.enqueue_kind,
          emptyContainer_kind])
        (Container.enqueue_wf _ es (emptyContainer_wf k))

theorem qminv_dequeue (qm : QueueManager) (k : QueueType) (n : String)
    (ev : Event) (qm2 : QueueManager) (inv : QMInv qm)
    (h : qm.dequeue k n = .ok (ev, qm2)) : QMInv qm2 := by
  unfold QueueManager.dequeue at h
  cases houter : alistLookup qm.queues k with
  | none => rw [houter] at h; exact absurd h (by simp)
  | some inner =>
    rw [houter] at h
    simp only at h
    cases hinner : alistLookup inner n with
    | none => rw [hinner] at h; exact absurd h (by simp)
    | some c =>
      rw [hinner] at h
      simp only at h
      cases hdq : c.dequeue with
      | error e => rw [hdq] at h; exact absurd h (by simp)
      | ok pr =>
        rw [hdq] at h
        obtain ⟨ev2, c2⟩ := pr
        simp only [Except.ok.injEq, Prod.mk.injEq] at h
        rw [← h.2]
        have hold := inv.entries k inner houter n c hinner
        exact qminv_insert qm k n inner c2 inv houter
          (by rw [Container.dequeue_kind c ev2 c2 hdq]; exact hold.1)
          (Container.dequeue_wf c ev2 c2 hold.2 hdq)

theorem qreachable_inv (qm : QueueManager) (h : QReachable qm) :
    QMInv qm := by
  induction h with
  | init => exact qminv_init
  | enqueue qm k n es qm2 _ heq ih => exact qminv_enqueue qm k n es qm2 ih heq
  | dequeue qm k n ev qm2 _ heq ih => exact qminv_dequeue qm k n ev qm2 ih heq

/-- Claim C7: the default-initialised queue manager has a `"default"`
container of every kind; and on any reachable manager, `enqueue` always
succeeds, after it the `(kind, name)` entry exists and holds the old
events plus the given ones, and for the priority-queue kind events of
equal priority are kept in call order (the filter at each priority is
old block followed by the new events in their given order). -/
theorem C7_theorem :
    (∀ k : QueueType, managerLookup QueueManager.init k "default" =
      some (emptyContainer k)) ∧
    (∀ (qm : QueueManager) (k : QueueType) (n : String) (es : List Event),
      QReachable qm →
      ∃ qm2, qm.enqueue k n es = Except.ok qm2 ∧
        ∃ c2, managerLookup qm2 k n = some c2 ∧
          c2.elems.Perm
            (((managerLookup qm k n).elim [] Container.elems) ++ es) ∧
          (k = QueueType.priority_queue → ∀ p : Nat,
            c2.elems.filter (prioEq p) =
              ((managerLookup qm k n).elim [] Container.elems).filter
                  (prioEq p) ++ es.filter (prioEq p))) := by
  constructor
  · intro k; cases k <;> rfl
  · intro qm k n es hre
    have inv := qreachable_inv qm hre
    cases houter : alistLookup qm.queues k with
    | none =>
      have hk := inv.kinds k
      rw [houter] at hk
      exact absurd hk (by simp)
    | some inner =>
      cases hinner : alistLookup inner n with
      | some c =>
        have hml : managerLookup qm k n = some c := by
          unfold managerLookup
          rw [houter]
          simp only
          rw [hinner]
        refine ⟨⟨alistInsert qm.queues k (alistInsert inner n
          (c.enqueue es))⟩, ?_, ?_⟩
        · unfold QueueManager.enqueue
          rw [houter]
          simp only
          rw [hinner]
        · refine ⟨c.enqueue es, ?_, ?_, ?_⟩
          · unfold managerLookup
            rw [alistLookup_insert_self]
            simp only
            rw [alistLookup_insert_self]
          · rw [hml]
            exact Container.enqueue_perm c es
          · intro hkpq p
            rw [hml]
            have hold := inv.entries k inner houter n c hinner
            rw [hkpq] at hold
            cases c with
            | queue l => exact absurd hold.1 (by simp [Container.kind])
            | stack l => exact absurd hold.1 (by simp [Container.kind])
            | priority_queue l => exact pqFold_filter es p l hold.2
      | none =>
        have hml : managerLookup qm k n = none := by
          unfold managerLookup
          rw [houter]
          simp only
          rw [hinner]
        refine ⟨⟨alistInsert qm.queues k (alistInsert inner n
          (containerOfEvents k es))⟩, ?_, ?_⟩
        · unfold QueueManager.enqueue
          rw [houter]
          simp only
          rw [hinner]
        · refine ⟨containerOfEvents k es, ?_, ?_, ?_⟩
          · unfold managerLookup
            rw [alistLookup_insert_self]
            simp only
            rw [alistLookup_insert_self]
          · rw [hml]
            have hp := Container.enqueue_perm (emptyContainer k) es
            rw [emptyContainer_elems] at hp
            simpa using hp
          · intro hkpq p
            rw [hml, hkpq]
            have hfl := pqFold_filter es p [] List.Pairwise.nil
            simpa using hfl

/-- Witness for C7_theorem: the default "queue" container exists, and a
priority-queue enqueue of three events on the default manager succeeds
with the stated contents. -/
theorem C7_witness :
    managerLookup QueueManager.init QueueType.queue "default" =
      some (emptyContainer QueueType.queue) ∧
    (∃ qm2, QueueManager.init.enqueue QueueType.priority_queue "default"
        [⟨5, 0⟩, ⟨1, 1⟩, ⟨3, 2⟩] = Except.ok qm2 ∧
      ∃ c2, managerLookup qm2 QueueType.priority_queue "default" =
          some c2 ∧
        c2.elems.Perm
          (((managerLookup QueueManager.init QueueType.priority_queue
            "default").elim [] Container.elems) ++
            [⟨5, 0⟩, ⟨1, 1⟩, ⟨3, 2⟩]) ∧
        (QueueType.priority_queue = QueueType.priority_queue →
          ∀ p : Nat, c2.elems.filter (prioEq p) =
            ((managerLookup QueueManager.init QueueType.priority_queue
              "default").elim [] Container.elems).filter (prioEq p) ++
              ([⟨5, 0⟩, ⟨1, 1⟩, ⟨3, 2⟩] : List Event).filter (prioEq p))) :=
  ⟨C7_theorem.1 QueueType.queue,
   C7_theorem.2 QueueManager.init QueueType.priority_queue "default"
     [⟨5, 0⟩, ⟨1, 1⟩, ⟨3, 2⟩] QReachable.init⟩

/-! ## Claim C9: template rendering before dispatch

`HTTP.process` (pub_sub.py lines 38-42) and `Email.process` (lines
74-78) render the message through `self.message_format` before any
dispatch work: `message_format.format(**message)` for a dict message
(named-field substitution over the record's fields) and
`message_format.format(message)` for anything else (single-value
substitution of the one positional argument).  Python's `str.format`
raises on a malformed template or a reference to an absent field or
positional; the spec's error taxonomy calls that failure class
`FormatError`, which is the error type of the embedding. -/

inductive FormatError where
  | MalformedTemplate
  | MissingField (name : String)
  | MissingPositional
deriving DecidableEq, Repr

inductive Message where
  | scalar (v : String)
  | record (fields : List (String × String))
deriving DecidableEq, Repr

/-- A parsed `str.format` template chunk: a literal character, an
auto-numbered positional field, an explicit positional index, or a named
field. -/
inductive TemplateItem where
  | lit (c : Char)
  | posField
  | idxField (i : Nat)
  | namedField (name : String)
deriving DecidableEq, Repr

/-- Scan a replacement field up to the closing brace. -/
def splitField : List Char → Option (List Char × List Char)
  | [] => none
  | c :: rest =>
    if c = '}' then some ([], rest)
    else (splitField rest).map fun pr => (c :: pr.1, pr.2)

theorem splitField_length (l f r : List Char)
    (h : splitField l = some (f, r)) : r.length < l.length := by
  induction l generalizing f r with
  | nil => simp [splitField] at h
  | cons c rest ih =>
    have hh : splitField (c :: rest) = if c = '}' then some ([], rest)
        else (splitField rest).map fun pr => (c :: pr.1, pr.2) := rfl
    by_cases hc : c = '}'
    · rw [hh, if_pos hc] at h
      have h2 : rest = r := congrArg Prod.snd (Option.some_inj.mp h)
      rw [← h2]
      simp
    · rw [hh, if_neg hc, Option.map_eq_some'] at h
      obtain ⟨pr, hpr, heq⟩ := h
      have h2 : pr.2 = r := congrArg Prod.snd heq
      have h3 := ih pr.1 pr.2 (by rw [hpr])
      rw [← h2]
      simp only [List.length_cons]
      omega

def digitsToNat (f : List Char) : Nat :=
  f.foldl (fun acc c => acc * 10 + (c.toNat - 48)) 0

/-- Interpret a replacement-field name: empty is the auto positional
field, all digits is an explicit positional index, anything else a named
(keyword) field. -/
def mkField (f : List Char) : TemplateItem :=
  if f = [] then .posField
  else if f.all Char.isDigit then .idxField (digitsToNat f)
  else .namedField (String.mk f)

/-- Parse a format string: `\x7b\x7b` and `\x7d\x7d` are escaped braces,
`\x7b...\x7d` is a replacement field, a stray closing or unclosed brace
is a malformed template. -/
def parseFmt : List Char → Except FormatError (List TemplateItem)
  | [] => .ok []
  | '{' :: '{' :: rest => (parseFmt rest).map fun ts => .lit '{' :: ts
  | '}' :: '}' :: rest => (parseFmt rest).map fun ts => .lit '}' :: ts
  | '{' :: rest =>
    match h : splitField rest with
    | none => .error .MalformedTemplate
    | some (f, r) =>
      if '{' ∈ f then .error .MalformedTemplate
      else (parseFmt r).map fun ts => mkField f :: ts
  | '}' :: _ => .error .MalformedTemplate
  | c :: rest => (parseFmt rest).map fun ts => .lit c :: ts
termination_by l => l.length
decreasing_by
  all_goals simp_wf
  all_goals first
  | omega
  | exact Nat.lt_trans (splitField_length rest f r h) (Nat.lt_succ_self _)

/-- One replacement: a named field reads the record's field of that name
(`format(**message)` passes only keyword arguments, so a positional
reference fails), the positional field reads the single positional
argument of `format(message)` (so a named reference fails). -/
def renderItem (m : Message) : TemplateItem → Except FormatError (List Char)
  | .lit c => .ok [c]
  | .posField =>
    match m with
    | .scalar v => .ok v.data
    | .record _ => .error .MissingPositional
  | .idxField i =>
    match m with
    | .scalar v => if i = 0 then .ok v.data else .error .MissingPositional
    | .record _ => .error .MissingPositional
  | .namedField nm =>
    match m with
    | .scalar _ => .error (.MissingField nm)
    | .record fs =>
      match alistLookup fs nm with
      | some v => .ok v.data
      | none => .error (.MissingField nm)

def renderItems (m : Message) : List TemplateItem →
    Except FormatError (List Char)
  | [] => .ok []
  | t :: ts =>
    match renderItem m t with
    | .error e => .error e
    | .ok s =>
      match renderItems m ts with
      | .error e => .error e
      | .ok s2 => .ok (s ++ s2)

/-- `fmt.format(**message)` / `fmt.format(message)`. -/
def strFormat (fmt : String) (m : Message) : Except FormatError String :=
  match parseFmt fmt.data with
  | .error e => .error e
  | .ok items => (renderItems m items).map fun cs => String.mk cs

/-- Lines 38-48 of `HTTP.process`: if a format template is carried the
message is rendered through it first, and the (rendered) message is the
`"data"` payload handed to the transport; a rendering failure propagates
before any dispatch.  The transport call itself is out of scope; the
returned value is the payload dispatched. -/
def HTTP_process (message_format : Option String) (m : Message) :
    Except FormatError Message :=
  match message_format with
  | none => .ok m
  | some f => (strFormat f m).map Message.scalar

/-- Lines 74-101 of `Email.process`: same rendering contract before the
mail transport is reached. -/
def Email_process (message_format : Option String) (m : Message) :
    Except FormatError Message :=
  match message_format with
  | none => .ok m
  | some f => (strFormat f m).map Message.scalar

theorem renderItem_missingField (fs : List (String × String)) (k : String)
    (hnone : alistLookup fs k = none) :
    renderItem (.record fs) (.namedField k) = .error (.MissingField k) := by
  simp only [renderItem]
  rw [hnone]

theorem renderItems_error_of_mem (m : Message) (items : List TemplateItem)
    (t : TemplateItem) (hmem : t ∈ items) (e : FormatError)
    (he : renderItem m t = .error e) :
    ∃ err, renderItems m items = .error err := by
  induction items with
  | nil => cases hmem
  | cons x xs ih =>
    rcases List.mem_cons.mp hmem with h1 | h1
    · refine ⟨e, ?_⟩
      show renderItems m (x :: xs) = .error e
      unfold renderItems
      rw [← h1, he]
    · cases hx : renderItem m x with
      | error e2 =>
        refine ⟨e2, ?_⟩
        unfold renderItems
        rw [hx]
      | ok s =>
        obtain ⟨err, herr⟩ := ih h1
        refine ⟨err, ?_⟩
        unfold renderItems
        rw [hx]
        simp only
        rw [herr]

/-- Claim C9: a strategy carrying a format template renders the message
through it before dispatch — the dispatched payload is exactly the
rendered string, and rendering is named-field substitution for record
messages and single-value substitution for scalar messages — while a
malformed template or a reference to a missing field fails with the
corresponding `FormatError` (propagated, never silently dropped), for
both the HTTP and the Email strategy. -/
theorem C9_theorem :
    (∀ m, HTTP_process none m = .ok m ∧ Email_process none m = .ok m) ∧
    (∀ (f : String) (m : Message) (s : String), strFormat f m = .ok s →
      HTTP_process (some f) m = .ok (.scalar s) ∧
      Email_process (some f) m = .ok (.scalar s)) ∧
    (∀ (f : String) (m : Message) (e : FormatError),
      strFormat f m = .error e →
      HTTP_process (some f) m = .error e ∧
      Email_process (some f) m = .error e) ∧
    (∀ (f : String) (m : Message) (e : FormatError),
      parseFmt f.data = .error e → strFormat f m = .error e) ∧
    (∀ (f : String) (fs : List (String × String))
       (items : List TemplateItem) (k : String),
      parseFmt f.data = .ok items → TemplateItem.namedField k ∈ items →
      alistLookup fs k = none →
      ∃ err, strFormat f (.record fs) = .error err) ∧
    (∀ (fs : List (String × String)) (k v : String),
      alistLookup fs k = some v →
      renderItem (.record fs) (.namedField k) = .ok v.data) ∧
    (∀ v : String, renderItem (.scalar v) .posField = .ok v.data) := by
  refine ⟨fun m => ⟨rfl, rfl⟩, ?_, ?_, ?_, ?_, ?_, fun v => rfl⟩
  · intro f m s h
    constructor
    · show (strFormat f m).map Message.scalar = _
      rw [h]
      rfl
    · show (strFormat f m).map Message.scalar = _
      rw [h]
      rfl
  · intro f m e h
    constructor
    · show (strFormat f m).map Message.scalar = _
      rw [h]
      rfl
    · show (strFormat f m).map Message.scalar = _
      rw [h]
      rfl
  · intro f m e h
    unfold strFormat
    rw [h]
  · intro f fs items k hparse hmem hnone
    obtain ⟨err, herr⟩ := renderItems_error_of_mem (.record fs) items
      (.namedField k) hmem (.MissingField k)
      (renderItem_missingField fs k hnone)
    refine ⟨err, ?_⟩
    unfold strFormat
    rw [hparse]
    simp only
    rw [herr]
    rfl
  · intro fs k v h
    simp only [renderItem]
    rw [h]

/-- Witness for C9_theorem at concrete templates and messages. -/
theorem C9_witness :
    HTTP_process none (.scalar "m") = .ok (.scalar "m") ∧
    HTTP_process (some "Hi {name}") (.record [("name", "Bob")]) =
      .ok (.scalar "Hi Bob") ∧
    Email_process (some (String.mk ['{', 'x'])) (.scalar "s") =
      .error .MalformedTemplate ∧
    strFormat (String.mk ['{', 'x']) (.scalar "s") =
      .error .MalformedTemplate ∧
    (∃ err, strFormat "n {a}" (.record []) = .error err) ∧
    renderItem (.record [("k", "v")]) (.namedField "k") =
      .ok ("v").data ∧
    renderItem (.scalar "7") TemplateItem.posField = .ok ("7").data := by
  refine ⟨(C9_theorem.1 (.scalar "m")).1,
    (C9_theorem.2.1 "Hi {name}" (.record [("name", "Bob")]) "Hi Bob"
      ?_).1,
    (C9_theorem.2.2.1 (String.mk ['{', 'x']) (.scalar "s")
      .MalformedTemplate ?_).2,
    C9_theorem.2.2.2.1 (String.mk ['{', 'x']) (.scalar "s")
      .MalformedTemplate ?_,
    C9_theorem.2.2.2.2.1 "n {a}" []
      [.lit 'n', .lit ' ', .namedField "a"] "a" ?_ (by simp) rfl,
    C9_theorem.2.2.2.2.2.1 [("k", "v")] "k" "v" (by
      simp [alistLookup]),
    C9_theorem.2.2.2.2.2.2 "7"⟩
  · simp [strFormat, parseFmt, splitField, mkField, renderItems,
      renderItem, alistLookup, Except.map, String.mk]
  · simp [strFormat, parseFmt, splitField]
  · simp [parseFmt, splitField]
  · simp [parseFmt, splitField, mkField, Except.map]
